import Mathlib

/-!
Shallow embedding of `arc-acreage/src/fast.rs`: a backtracking search that
enumerates closed self-avoiding curves made of diagonal slant segments on a
7x7 grid and counts those enclosing a target area.

Machine integers (`u8`, `usize`) are modelled as `Nat`; the only arithmetic
operation where `u8` overflow could matter on arbitrary inputs is the addition
in `Area::simplify`, which is modelled with an explicit `% 256` (release-mode
wrap-around semantics).  `Vec` push/pop is modelled with list cons/tail (the
most recent move is the head of the list).  Rust panics that the claims do not
mention (`assert!(placed == false)`, popping an empty move log, the
`unreachable!` arms) are modelled as no-ops; the parity assertion at loop
closure and the `expect` on `loop_area` are tracked in an explicit `assertOk`
flag of the search state.
-/

namespace ArcAcreage

/-- `Cell` from fast.rs: a grid cell, empty or holding a forward (╱) or
backward (╲) slant. -/
inductive Cell where
  | Empty
  | Forward
  | Backward
deriving DecidableEq, Repr

/-- `Area` from fast.rs: `units` full units plus `half` half units. -/
structure Area where
  units : Nat
  half : Nat
deriving DecidableEq, Repr

/-- `Area::simplify`: collapse pairs of half units into full units.  The `u8`
addition `self.units + u` is modelled with wrap-around (`% 256`). -/
def Area.simplify (a : Area) : Area :=
  let u := a.half / 2
  { units := (a.units + u) % 256
    half := a.half - 2 * u }

/-- `Area::is_integer`. -/
def Area.isInteger (a : Area) (n : Nat) : Bool :=
  let simplified := a.simplify
  simplified.units == n && simplified.half == 0

/-- `AreaError` from fast.rs. -/
inductive AreaError where
  | LoopNotClosed
deriving DecidableEq, Repr

/-- The `[[T; 7]; 7]` matrices of fast.rs, as lists of rows. -/
abbrev Mat (α : Type) := List (List α)

/-- Read entry `(r, c)` of a matrix (`m[r][c]` in the source; the source
indexing is always in bounds, out-of-bounds reads return `d`). -/
def matGet {α : Type} (m : Mat α) (d : α) (r c : Nat) : α :=
  ((m[r]?.getD [])[c]?).getD d

/-- Write entry `(r, c)` of a matrix (`m[r][c] = v` in the source). -/
def matSet {α : Type} (m : Mat α) (r c : Nat) (v : α) : Mat α :=
  m.set r ((m[r]?.getD []).set c v)

/-- The shape invariant of the `[[T; 7]; 7]` type: 7 rows of 7 entries. -/
def matWF {α : Type} (m : Mat α) : Prop :=
  m.length = 7 ∧ ∀ row ∈ m, row.length = 7

instance {α : Type} (m : Mat α) : Decidable (matWF m) := by
  unfold matWF; infer_instance

/-- `Grid` from fast.rs: a 7x7 matrix of cells. -/
structure Grid where
  data : Mat Cell
deriving DecidableEq, Repr

/-- `Grid::new`. -/
def Grid.new (data : Mat Cell) : Grid := ⟨data⟩

def Grid.get (g : Grid) (r c : Nat) : Cell := matGet g.data Cell.Empty r c

def Grid.set (g : Grid) (r c : Nat) (v : Cell) : Grid := ⟨matSet g.data r c v⟩

/-- The four counters accumulated by the scan in `Grid::loop_area`:
`n` slanted segments, `k` outside full cells, `j` inside full cells,
`h` half-unit contributions. -/
structure ScanCounts where
  n : Nat
  k : Nat
  j : Nat
  h : Nat
deriving DecidableEq, Repr

/-- One step of the inner loop of `Grid::loop_area`: the `Bool` is the
`outside` flag. -/
def scanCell (p : Bool × ScanCounts) (c : Cell) : Bool × ScanCounts :=
  match c with
  | Cell.Empty =>
      (p.1, if p.1 then { p.2 with k := p.2.k + 1 } else { p.2 with j := p.2.j + 1 })
  | Cell.Forward | Cell.Backward =>
      (!p.1, { p.2 with n := p.2.n + 1, h := p.2.h + 1 })

/-- One row of the scan in `Grid::loop_area`; `outside` starts `true` at the
left edge of each row. -/
def scanRow (st : ScanCounts) (row : List Cell) : ScanCounts :=
  (row.foldl scanCell (true, st)).2

/-- The full scan of `Grid::loop_area` over all rows. -/
def Grid.scan (g : Grid) : ScanCounts :=
  g.data.foldl scanRow ⟨0, 0, 0, 0⟩

/-- `Grid::loop_area`. -/
def Grid.loopArea (g : Grid) : Except AreaError Area :=
  let st := g.scan
  if st.n + st.k + st.j ≠ 49 then
    Except.error AreaError.LoopNotClosed
  else
    Except.ok (Area.mk st.j st.h).simplify

/-- `central_binom` from fast.rs: lookup table for `C(2n, n)`; `none` models
the `unimplemented!()` panic for `n > 26`. -/
def centralBinom (n : Nat) : Option Nat :=
  match n with
  | 0 => some 1
  | 1 => some 2
  | 2 => some 6
  | 3 => some 20
  | 4 => some 70
  | 5 => some 252
  | 6 => some 924
  | 7 => some 3432
  | 8 => some 12870
  | 9 => some 48620
  | 10 => some 184756
  | 11 => some 705432
  | 12 => some 2704156
  | 13 => some 10400600
  | 14 => some 40116600
  | 15 => some 155117520
  | 16 => some 601080390
  | 17 => some 2333606220
  | 18 => some 9075135300
  | 19 => some 35345263800
  | 20 => some 137846528820
  | 21 => some 538257874440
  | 22 => some 2104098963720
  | 23 => some 8233430727600
  | 24 => some 32247603683100
  | 25 => some 126410606437752
  | 26 => some 495918532948104
  | _ => none

/-- `Generator` from fast.rs: the mutable backtracking frame.  The extra
`assertOk` flag records that the `assert!(placed_cnt % 2 == 0)` at loop
closure and the `expect` on `loop_area` never failed. -/
structure Generator where
  target : Area
  maxInnerCells : Nat
  maxLength : Nat
  grid : Grid
  placed : Mat Bool
  placedCnt : Nat
  moves : List ((Nat × Nat) × (Nat × Nat))
  start : Nat × Nat
  head : Nat × Nat
  validGrids : List Grid
  validCnt : Nat
  calls : Nat
  innerCells : Nat
  assertOk : Bool
deriving Repr

/-- `Generator::new`. -/
def Generator.new (target : Area) (maxInnerCells maxLength : Nat) : Generator :=
  { target := target.simplify
    maxInnerCells := maxInnerCells
    maxLength := maxLength
    grid := Grid.new (List.replicate 7 (List.replicate 7 Cell.Empty))
    placed := List.replicate 7 (List.replicate 7 false)
    placedCnt := 0
    moves := []
    start := (0, 0)
    head := (0, 0)
    validGrids := []
    validCnt := 0
    calls := 0
    innerCells := 0
    assertOk := true }

/-- Whether the `placed` flag of cell `(r, c)` is set. -/
def Generator.placedAt (s : Generator) (r c : Nat) : Bool :=
  matGet s.placed false r c

/-- `Generator::place`.  The `assert_eq!(*placed, false)` never fires in the
source and is modelled as a no-op. -/
def place (s : Generator) (row col : Nat) (c : Cell) (headr headc : Nat) : Generator :=
  { s with
    grid := s.grid.set row col c
    placed := matSet s.placed row col true
    placedCnt := s.placedCnt + 1
    moves := ((row, col), s.head) :: s.moves
    head := (headr, headc)
    innerCells :=
      if 0 < row ∧ row < 6 ∧ 0 < col ∧ col < 6 then s.innerCells + 1 else s.innerCells }

/-- `Generator::unplace`.  The source panics when the move log is empty; that
situation is unreachable and modelled as a no-op. -/
def unplace (s : Generator) : Generator :=
  match s.moves with
  | [] => s
  | ((row, col), oldHead) :: rest =>
    { s with
      grid := s.grid.set row col Cell.Empty
      placed := matSet s.placed row col false
      placedCnt := s.placedCnt - 1
      moves := rest
      head := oldHead
      innerCells :=
        if 0 < row ∧ row < 6 ∧ 0 < col ∧ col < 6 then s.innerCells - 1 else s.innerCells }

/-- The skip test of the first-placement phase of `Generator::next_cell`: a
trial is skipped when the implied starting vertex is one of the four corner
vertices of the grid.  For `Forward` the start is `(r + 1, c)`, for
`Backward` it is `(r, c)`. -/
def firstSkip (r c : Nat) (cell : Cell) : Bool :=
  match cell with
  | Cell.Empty => false
  | Cell.Forward =>
      decide ((r + 1, c) = ((0 : Nat), (0 : Nat)) ∨ (r + 1, c) = (0, 7)
        ∨ (r + 1, c) = (7, 0) ∨ (r + 1, c) = (7, 7))
  | Cell.Backward =>
      decide ((r, c) = ((0 : Nat), (0 : Nat)) ∨ (r, c) = (0, 7)
        ∨ (r, c) = (7, 0) ∨ (r, c) = (7, 7))

/-- The cells visited by the two nested `for` loops of the first-placement
phase, in source order. -/
def firstCellList : List (Nat × Nat) :=
  (List.range 7).flatMap (fun r => (List.range 7).map (fun c => (r, c)))

/-- One trial of the first-placement phase: set `start`/`head`, place the
opening segment, recurse, then unplace.  `recur` is the recursive call to
`next_cell`. -/
def firstTry (recur : Generator → Generator) (s : Generator) (r c : Nat)
    (cell : Cell) : Generator :=
  match cell with
  | Cell.Empty => s
  | Cell.Forward =>
    if firstSkip r c Cell.Forward then s
    else
      let s := { s with head := (r, c + 1), start := (r + 1, c) }
      let s := place s r c Cell.Forward r (c + 1)
      let s := recur s
      unplace s
  | Cell.Backward =>
    if firstSkip r c Cell.Backward then s
    else
      let s := { s with head := (r + 1, c + 1), start := (r, c) }
      let s := place s r c Cell.Backward (r + 1) (c + 1)
      let s := recur s
      unplace s

/-- A candidate extension move `(ncellr, ncellc, cell, nr, nc)` as pushed into
the local `moves` vector of `Generator::next_cell`. -/
abbrev Cand := Nat × Nat × Cell × Nat × Nat

/-- The body of the two nested direction loops of the extension phase for one
direction pair `(dr, dc)`: bounds checks on the new head, the `placed` check
on the implied cell, and the slant orientation implied by the direction. -/
def extMove1 (s : Generator) (dr dc : Int) : List Cand :=
  let nr : Int := (s.head.1 : Int) + dr
  if nr < 0 ∨ 7 < nr then []
  else
    let nc : Int := (s.head.2 : Int) + dc
    if nc < 0 ∨ 7 < nc then []
    else
      let nrn := nr.toNat
      let ncn := nc.toNat
      let ncellr := if dr = 1 then nrn - 1 else nrn
      let ncellc := if dc = 1 then ncn - 1 else ncn
      if s.placedAt ncellr ncellc then []
      else if (dr = -1 ∧ dc = -1) ∨ (dr = 1 ∧ dc = 1) then
        [(ncellr, ncellc, Cell.Backward, nrn, ncn)]
      else
        [(ncellr, ncellc, Cell.Forward, nrn, ncn)]

/-- The candidate list built by the extension phase, in the source's loop
order `dr ∈ [-1, 1]`, `dc ∈ [-1, 1]`. -/
def extMoves (s : Generator) : List Cand :=
  extMove1 s (-1) (-1) ++ extMove1 s (-1) 1 ++ extMove1 s 1 (-1) ++ extMove1 s 1 1

/-- The self-intersection counter of the extension phase: how many of the four
cells around the new head vertex `(nr, nc)` are already non-empty. -/
def crossCnt (g : Grid) (nr nc : Nat) : Nat :=
  (if 0 < nr ∧ 0 < nc ∧ g.get (nr - 1) (nc - 1) ≠ Cell.Empty then 1 else 0)
  + (if 0 < nr ∧ nc < 7 ∧ g.get (nr - 1) nc ≠ Cell.Empty then 1 else 0)
  + (if nr < 7 ∧ 0 < nc ∧ g.get nr (nc - 1) ≠ Cell.Empty then 1 else 0)
  + (if nr < 7 ∧ nc < 7 ∧ g.get nr nc ≠ Cell.Empty then 1 else 0)

/-- The state right after placing a closing segment and executing
`assert!(self.placed_cnt % 2 == 0)` (recorded in `assertOk`); the `s1` of the
loop-closure block. -/
def closeState (s : Generator) (ncellr ncellc : Nat) (nCell : Cell)
    (nr nc : Nat) : Generator :=
  let s1 := place s ncellr ncellc nCell nr nc
  { s1 with assertOk := s1.assertOk && decide (s1.placedCnt % 2 = 0) }

/-- The loop-closure block of the extension phase: place the closing segment,
check the parity assertion, compute the area and harvest the grid when it
matches the target, then unplace.  The returned flag is whether control falls
through to the extension placement (`true` except when the loop closed with
the wrong area, which `continue`s).  A failing `expect` on `loop_area` would
clear `assertOk`. -/
def closeTry (s : Generator) (ncellr ncellc : Nat) (nCell : Cell)
    (nr nc : Nat) : Bool × Generator :=
  match (closeState s ncellr ncellc nCell nr nc).grid.loopArea with
  | Except.ok area =>
    if area.simplify = (closeState s ncellr ncellc nCell nr nc).target then
      (true, unplace
        { closeState s ncellr ncellc nCell nr nc with
          validGrids := (closeState s ncellr ncellc nCell nr nc).grid
            :: (closeState s ncellr ncellc nCell nr nc).validGrids
          validCnt := (closeState s ncellr ncellc nCell nr nc).validCnt
            + (centralBinom ((closeState s ncellr ncellc nCell nr nc).placedCnt / 2)).getD 0 })
    else
      (false, unplace (closeState s ncellr ncellc nCell nr nc))
  | Except.error _ =>
    (false, unplace { closeState s ncellr ncellc nCell nr nc with assertOk := false })

/-- The extension placement at the end of the move loop body: the
`max_length` prune, `place`, the `inner_cells`-gated recursion, `unplace`. -/
def extPlace (recur : Generator → Generator) (s : Generator)
    (ncellr ncellc : Nat) (nCell : Cell) (nr nc : Nat) : Generator :=
  if s.maxLength < s.placedCnt + 1 then s
  else
    let s := place s ncellr ncellc nCell nr nc
    let s := if s.innerCells ≤ s.maxInnerCells then recur s else s
    unplace s

/-- The body of the `for ... in moves` loop of the extension phase: the
self-intersection check, the loop-closure test when the new head vertex is
the start, then the extension placement.  `recur` is the recursive call to
`next_cell`. -/
def tryMove (recur : Generator → Generator) (s : Generator) (m : Cand) : Generator :=
  let (ncellr, ncellc, nCell, nr, nc) := m
  if 2 ≤ crossCnt s.grid nr nc then s
  else
    match
      (if nr = s.start.1 ∧ nc = s.start.2
        then closeTry s ncellr ncellc nCell nr nc
        else (true, s)) with
    | (false, s) => s
    | (true, s) => extPlace recur s ncellr ncellc nCell nr nc

/-- The body of the first-placement phase for one cell: try both slant
orientations, then permanently mark the cell as placed so the search never
returns to it. -/
def firstCellStep (recur : Generator → Generator) (s : Generator)
    (rc : Nat × Nat) : Generator :=
  let s := [Cell.Forward, Cell.Backward].foldl
    (fun s cell => firstTry recur s rc.1 rc.2 cell) s
  { s with placed := matSet s.placed rc.1 rc.2 true }

/-- One unfolding of `Generator::next_cell` (with `recur` standing for the
recursive call): either the first-placement phase over all 49 cells and both
orientations, or the extension phase over the candidate moves. -/
def step (recur : Generator → Generator) (s : Generator) : Generator :=
  let s := { s with calls := s.calls + 1 }
  if s.moves.isEmpty then
    firstCellList.foldl (fun s rc => firstCellStep recur s rc) s
  else
    (extMoves s).foldl (fun s m => tryMove recur s m) s

/-- `Generator::next_cell`, with explicit recursion fuel.  The search depth is
bounded by `max_length + 2`, so the fuel supplied by `Generator.run` is never
exhausted. -/
def nextCell : Nat → Generator → Generator
  | 0, s => s
  | fuel + 1, s => step (nextCell fuel) s

/-- Run the search to completion, returning the final frame. -/
def Generator.run (s : Generator) : Generator :=
  nextCell (s.maxLength + 3) s

/-- `Generator::generate`. -/
def Generator.generate (s : Generator) : Nat × List Grid :=
  let s := s.run
  (s.validCnt, s.validGrids)

/-- Apply a list of `place` calls in order. -/
def placeSeq (s : Generator) : List (Nat × Nat × Cell × Nat × Nat) → Generator
  | [] => s
  | (r, c, cell, hr, hc) :: rest => placeSeq (place s r c cell hr hc) rest

/-- Apply `unplace` `n` times. -/
def unplaceN (s : Generator) : Nat → Generator
  | 0 => s
  | n + 1 => unplaceN (unplace s) n

/-- A sequence of placements is fresh when each successive placement hits a
cell that is unmarked and empty at that point. -/
def seqFresh (s : Generator) : List (Nat × Nat × Cell × Nat × Nat) → Bool
  | [] => true
  | (r, c, cell, hr, hc) :: rest =>
    !s.placedAt r c && (s.grid.get r c == Cell.Empty)
      && seqFresh (place s r c cell hr hc) rest

/-- The 98 cell/orientation configurations enumerated by the first-placement
phase, in source order. -/
def firstConfigs : List (Nat × Nat × Cell) :=
  firstCellList.flatMap (fun rc => [(rc.1, rc.2, Cell.Forward), (rc.1, rc.2, Cell.Backward)])

/-- The configurations the first-placement phase skips. -/
def skippedConfigs : List (Nat × Nat × Cell) :=
  firstConfigs.filter (fun t => firstSkip t.1 t.2.1 t.2.2)

/-- The 7x7 grid that is empty except for one 2x2 block of opposite-facing
slants forming the minimal closed loop (the repository's own `grid1` test). -/
def gridMinLoop : Grid := Grid.new [
  [Cell.Empty, Cell.Empty, Cell.Empty, Cell.Empty, Cell.Empty, Cell.Empty, Cell.Empty],
  [Cell.Empty, Cell.Forward, Cell.Backward, Cell.Empty, Cell.Empty, Cell.Empty, Cell.Empty],
  [Cell.Empty, Cell.Backward, Cell.Forward, Cell.Empty, Cell.Empty, Cell.Empty, Cell.Empty],
  [Cell.Empty, Cell.Empty, Cell.Empty, Cell.Empty, Cell.Empty, Cell.Empty, Cell.Empty],
  [Cell.Empty, Cell.Empty, Cell.Empty, Cell.Empty, Cell.Empty, Cell.Empty, Cell.Empty],
  [Cell.Empty, Cell.Empty, Cell.Empty, Cell.Empty, Cell.Empty, Cell.Empty, Cell.Empty],
  [Cell.Empty, Cell.Empty, Cell.Empty, Cell.Empty, Cell.Empty, Cell.Empty, Cell.Empty]]

instance : DecidableEq (Except AreaError Area) := fun a b =>
  match a, b with
  | Except.ok x, Except.ok y => decidable_of_iff (x = y) (by simp)
  | Except.error x, Except.error y => decidable_of_iff (x = y) (by simp)
  | Except.ok _, Except.error _ => isFalse (by simp)
  | Except.error _, Except.ok _ => isFalse (by simp)

/-- Closure conditions on a state predicate: such a predicate is preserved by
every elementary state change `next_cell` performs. -/
structure PresInv (P : Generator → Prop) : Prop where
  presPlace : ∀ s row col c headr headc, P s → P (place s row col c headr headc)
  presUnplace : ∀ s, P s → P (unplace s)
  presHeadStart : ∀ s a b t1 t2, P s → P { s with head := (a, b), start := (t1, t2) }
  presPlacedMark : ∀ s r c, P s → P { s with placed := matSet s.placed r c true }
  presCalls : ∀ s, P s → P { s with calls := s.calls + 1 }
  presAssert : ∀ s b, P s → P { s with assertOk := b }
  presPush : ∀ (s : Generator) (area : Area), P s →
      s.grid.loopArea = Except.ok area → area.simplify = s.target →
      P { s with validGrids := s.grid :: s.validGrids,
                 validCnt := s.validCnt + (centralBinom (s.placedCnt / 2)).getD 0 }

/-- The invariant behind C2: the stored target is the simplified input target
and every harvested grid's loop area matches it. -/
def harvestedMatch (t : Area) (s : Generator) : Prop :=
  s.target = t.simplify
    ∧ ∀ g ∈ s.validGrids, ∃ a, g.loopArea = Except.ok a ∧ a.simplify = t.simplify


/-- Two states agree on the backtracking frame: everything except the
accumulators `validGrids`/`validCnt`, the `calls` counter and `assertOk`. -/
structure SameFrame (s1 s2 : Generator) : Prop where
  hgrid : s1.grid = s2.grid
  hplaced : s1.placed = s2.placed
  hcnt : s1.placedCnt = s2.placedCnt
  hmoves : s1.moves = s2.moves
  hhead : s1.head = s2.head
  hstart : s1.start = s2.start
  hinner : s1.innerCells = s2.innerCells
  htarget : s1.target = s2.target
  hmaxInner : s1.maxInnerCells = s2.maxInnerCells
  hmaxLen : s1.maxLength = s2.maxLength

/-- The placed cells cover the non-empty cells: an unmarked cell is empty. -/
def GP (s : Generator) : Prop :=
  ∀ r c : Nat, matGet s.placed false r c = false →
    matGet s.grid.data Cell.Empty r c = Cell.Empty

/-- The frame part of the parity invariant: well-shaped matrices, the move
log length agreeing with `placed_cnt`, the head/length/start parity relation,
and the placed/empty coverage. -/
def QFrame (s : Generator) : Prop :=
  matWF s.grid.data ∧ matWF s.placed
    ∧ s.placedCnt = s.moves.length
    ∧ (s.moves ≠ [] → (s.head.1 + s.placedCnt) % 2 = s.start.1 % 2)
    ∧ GP s


/-! ### Matrix lemmas -/

theorem list_set_getElem_self {α : Type} {l : List α} {n : Nat} {a : α}
    (h : l[n]? = some a) : l.set n a = l := by
  induction l generalizing n with
  | nil => simp at h
  | cons x xs ih =>
    cases n with
    | zero =>
      simp only [List.getElem?_cons_zero, Option.some.injEq] at h
      simp [h]
    | succ n =>
      simp only [List.getElem?_cons_succ] at h
      simp [ih h]

theorem matSet_oob_row {α : Type} (m : Mat α) (r c : Nat) (v : α)
    (hr : m.length ≤ r) : matSet m r c v = m :=
  List.set_eq_of_length_le hr

theorem matSet_cancel {α : Type} {m : Mat α} {d : α} {r c : Nat} {v0 : α} (v : α)
    (h : matGet m d r c = v0) : matSet (matSet m r c v) r c v0 = m := by
  by_cases hr : r < m.length
  · have hrow : m[r]? = some (m[r]) := List.getElem?_eq_getElem hr
    by_cases hc : c < (m[r]).length
    · have hv0 : m[r][c] = v0 := by
        unfold matGet at h
        rw [hrow] at h
        simpa [List.getElem?_eq_getElem hc] using h
      unfold matSet
      rw [hrow]
      simp only [Option.getD_some]
      have h2 : (m.set r ((m[r]).set c v))[r]? = some ((m[r]).set c v) :=
        List.getElem?_set_eq_of_lt _ (by simpa using hr)
      rw [h2]
      simp only [Option.getD_some, List.set_set]
      rw [← hv0, list_set_getElem_self (List.getElem?_eq_getElem hc),
        list_set_getElem_self hrow]
    · have hrowset : ∀ w : α, (m[r]).set c w = (m[r]) :=
        fun w => List.set_eq_of_length_le (Nat.le_of_not_lt hc)
      unfold matSet
      rw [hrow]
      simp only [Option.getD_some, hrowset]
      rw [list_set_getElem_self hrow, hrow]
      simp only [Option.getD_some, hrowset]
      exact list_set_getElem_self hrow
  · have hr' : m.length ≤ r := Nat.le_of_not_lt hr
    rw [matSet_oob_row m r c v hr', matSet_oob_row m r c v0 hr']

/-! ### place/unplace inversion -/

theorem unplace_place_mods (s : Generator) (row col : Nat) (c : Cell)
    (headr headc : Nat) (V : List Grid) (C : Nat) (K : Nat) (A : Bool)
    (h1 : s.placedAt row col = false) (h2 : s.grid.get row col = Cell.Empty) :
    unplace { place s row col c headr headc with
                validGrids := V, validCnt := C, calls := K, assertOk := A }
      = { s with validGrids := V, validCnt := C, calls := K, assertOk := A } := by
  unfold Generator.placedAt at h1
  unfold Grid.get at h2
  unfold place unplace Grid.set
  simp only [Generator.mk.injEq]
  refine ⟨?_, ?_, ?_, ?_, ?_, ?_, ?_, ?_, ?_, ?_, ?_, ?_, ?_, ?_⟩ <;>
    first
      | trivial
      | exact congrArg Grid.mk (matSet_cancel c h2)
      | exact matSet_cancel true h1
      | omega
      | (split <;> omega)

theorem unplace_place (s : Generator) (row col : Nat) (c : Cell)
    (headr headc : Nat)
    (h1 : s.placedAt row col = false) (h2 : s.grid.get row col = Cell.Empty) :
    unplace (place s row col c headr headc) = s :=
  unplace_place_mods s row col c headr headc s.validGrids s.validCnt s.calls
    s.assertOk h1 h2

theorem unplaceN_last (n : Nat) : ∀ s : Generator,
    unplaceN s (n + 1) = unplace (unplaceN s n) := by
  induction n with
  | zero => intro s; rfl
  | succ n ih =>
    intro s
    show unplaceN (unplace s) (n + 1) = unplace (unplaceN (unplace s) n)
    exact ih (unplace s)

theorem placeSeq_roundtrip : ∀ (ms : List (Nat × Nat × Cell × Nat × Nat))
    (s : Generator), seqFresh s ms = true → unplaceN (placeSeq s ms) ms.length = s := by
  intro ms
  induction ms with
  | nil => intro s _; rfl
  | cons m rest ih =>
    intro s h
    rcases m with ⟨r, c, cell, hr, hc⟩
    simp only [seqFresh, Bool.and_eq_true, Bool.not_eq_true', beq_iff_eq] at h
    obtain ⟨⟨hp, hg⟩, hrest⟩ := h
    show unplaceN (placeSeq (place s r c cell hr hc) rest) (rest.length + 1) = s
    rw [unplaceN_last, ih _ hrest, unplace_place _ _ _ _ _ _ hp hg]

/-! ### Lemmas about the area scan -/

theorem scanCell_sum (p : Bool × ScanCounts) (c : Cell) :
    (scanCell p c).2.n + (scanCell p c).2.k + (scanCell p c).2.j
      = p.2.n + p.2.k + p.2.j + 1 := by
  rcases p with ⟨b, st⟩
  cases c <;> cases b <;> simp [scanCell] <;> omega

theorem scanCell_hn (p : Bool × ScanCounts) (c : Cell) :
    (scanCell p c).2.h + p.2.n = (scanCell p c).2.n + p.2.h := by
  rcases p with ⟨b, st⟩
  cases c <;> cases b <;> simp [scanCell] <;> omega

theorem scanRow_go_sum (row : List Cell) : ∀ p : Bool × ScanCounts,
    (row.foldl scanCell p).2.n + (row.foldl scanCell p).2.k
        + (row.foldl scanCell p).2.j
      = p.2.n + p.2.k + p.2.j + row.length := by
  induction row with
  | nil => intro p; simp
  | cons c cs ih =>
    intro p
    rw [List.foldl_cons]
    have h1 := scanCell_sum p c
    have h2 := ih (scanCell p c)
    simp only [List.length_cons]
    omega

theorem scanRow_go_hn (row : List Cell) : ∀ p : Bool × ScanCounts,
    (row.foldl scanCell p).2.h + p.2.n
      = (row.foldl scanCell p).2.n + p.2.h := by
  induction row with
  | nil => intro p; simp only [List.foldl_nil]; omega
  | cons c cs ih =>
    intro p
    rw [List.foldl_cons]
    have h1 := scanCell_hn p c
    have h2 := ih (scanCell p c)
    omega

theorem scan_go_sum (rows : List (List Cell)) : ∀ st : ScanCounts,
    (rows.foldl scanRow st).n + (rows.foldl scanRow st).k + (rows.foldl scanRow st).j
      = st.n + st.k + st.j + (rows.map List.length).sum := by
  induction rows with
  | nil => intro st; simp
  | cons row rs ih =>
    intro st
    rw [List.foldl_cons]
    have h1 : (scanRow st row).n + (scanRow st row).k + (scanRow st row).j
        = st.n + st.k + st.j + row.length := scanRow_go_sum row (true, st)
    have h2 := ih (scanRow st row)
    simp only [List.map_cons, List.sum_cons]
    omega

theorem scan_go_hn (rows : List (List Cell)) : ∀ st : ScanCounts,
    (rows.foldl scanRow st).h + st.n = (rows.foldl scanRow st).n + st.h := by
  induction rows with
  | nil => intro st; simp only [List.foldl_nil]; omega
  | cons row rs ih =>
    intro st
    rw [List.foldl_cons]
    have h1 : (scanRow st row).h + st.n = (scanRow st row).n + st.h :=
      scanRow_go_hn row (true, st)
    have h2 := ih (scanRow st row)
    omega

theorem sum_lengths_seven (rows : List (List Cell))
    (h : ∀ r ∈ rows, r.length = 7) :
    (rows.map List.length).sum = 7 * rows.length := by
  induction rows with
  | nil => simp
  | cons r rs ih =>
    simp only [List.map_cons, List.sum_cons, List.length_cons]
    rw [h r (by simp), ih (fun x hx => h x (by simp [hx]))]
    ring

theorem grid_scan_sum (g : Grid) (hWF : matWF g.data) :
    g.scan.n + g.scan.k + g.scan.j = 49 := by
  obtain ⟨hlen, hrows⟩ := hWF
  have h := scan_go_sum g.data ⟨0, 0, 0, 0⟩
  rw [sum_lengths_seven g.data hrows, hlen] at h
  simp only [] at h
  have hs : g.scan = g.data.foldl scanRow ⟨0, 0, 0, 0⟩ := rfl
  rw [hs]
  simp at h
  omega

theorem grid_scan_hn (g : Grid) : g.scan.h = g.scan.n := by
  have h := scan_go_hn g.data ⟨0, 0, 0, 0⟩
  have hs : g.scan = g.data.foldl scanRow ⟨0, 0, 0, 0⟩ := rfl
  rw [hs]
  simp at h
  omega

theorem loopArea_ok_of_sum (g : Grid)
    (h49 : g.scan.n + g.scan.k + g.scan.j = 49) :
    g.loopArea = Except.ok (Area.mk g.scan.j g.scan.h).simplify := by
  unfold Grid.loopArea
  simp only []
  rw [if_neg (by omega)]

/-- The area reported for a loop never exceeds the 49 cells of the grid:
twice its simplified whole units plus its half flag is at most 98. -/
theorem loopArea_ok_bound (g : Grid) (a : Area)
    (h : g.loopArea = Except.ok a) :
    2 * a.simplify.units + a.simplify.half ≤ 98 := by
  unfold Grid.loopArea at h
  by_cases h49 : g.scan.n + g.scan.k + g.scan.j = 49
  · rw [if_neg (by omega)] at h
    have hhn := grid_scan_hn g
    have ha : a = (Area.mk g.scan.j g.scan.h).simplify := by
      exact (Except.ok.injEq _ _ ▸ h.symm :)
    subst ha
    simp only [Area.simplify]
    have hj : g.scan.j + g.scan.h ≤ 49 := by omega
    omega
  · rw [if_pos (by omega)] at h
    exact absurd h (by simp)

/-- Pairs of half units collapse; `simplify` is idempotent. -/
theorem simplify_simplify (a : Area) : a.simplify.simplify = a.simplify := by
  rcases a with ⟨u, h⟩
  simp only [Area.simplify, Area.mk.injEq]
  constructor <;> omega

theorem centralBinom_choose_aux (n v : Nat)
    (hfact : v * (n.factorial * n.factorial) = (2 * n).factorial) :
    v = Nat.choose (2 * n) n := by
  have hle : n ≤ 2 * n := by omega
  have h2 : Nat.choose (2 * n) n * n.factorial * ((2 * n) - n).factorial
      = (2 * n).factorial := Nat.choose_mul_factorial_mul_factorial hle
  have h3 : (2 * n) - n = n := by omega
  rw [h3] at h2
  have hpos : 0 < n.factorial * n.factorial :=
    Nat.mul_pos n.factorial_pos n.factorial_pos
  apply Nat.eq_of_mul_eq_mul_right hpos
  rw [hfact, ← h2, Nat.mul_assoc]

/-! ### Claim theorems for the Area model, the scan, and the helpers -/

/-- C8: for every `Area` `a`, `simplify` is idempotent,
`simplify (simplify a) = simplify a`; the simplified form always has
`half ∈ {0, 1}`. -/
theorem claim8_simplify_idempotent (a : Area) :
    a.simplify.simplify = a.simplify ∧ a.simplify.half ≤ 1 := by
  refine ⟨simplify_simplify a, ?_⟩
  rcases a with ⟨u, h⟩
  simp only [Area.simplify]
  omega

/-- C6: for every grid of the 7x7 shape, each of the 49 cells increments
exactly one of the three counters `n`, `k`, `j`, so the scan counters sum to
49 and `loop_area` always returns `Ok`, never `Err(LoopNotClosed)`. -/
theorem claim6_loop_area_total (g : Grid) (hWF : matWF g.data) :
    g.scan.n + g.scan.k + g.scan.j = 49 ∧ ∃ a, g.loopArea = Except.ok a := by
  have h := grid_scan_sum g hWF
  exact ⟨h, ⟨_, loopArea_ok_of_sum g h⟩⟩

/-- Witness for C6 at a concrete grid. -/
theorem claim6_witness :
    matWF gridMinLoop.data
      ∧ (gridMinLoop.scan.n + gridMinLoop.scan.k + gridMinLoop.scan.j = 49
        ∧ ∃ a, gridMinLoop.loopArea = Except.ok a) :=
  ⟨by decide, claim6_loop_area_total gridMinLoop (by decide)⟩

/-- C9: `central_binom n` equals the central binomial coefficient
`C(2n, n)` for every tabulated `n ≤ 26` (in particular
`central_binom 10 = 184756`), and is undefined (panics, modelled as `none`)
for `n > 26`. -/
theorem claim9_central_binom :
    (∀ n, n ≤ 26 → centralBinom n = some (Nat.choose (2 * n) n))
      ∧ centralBinom 10 = some 184756
      ∧ (∀ n, 26 < n → centralBinom n = none) := by
  refine ⟨?_, rfl, ?_⟩
  · intro n hn
    interval_cases n <;>
      exact congrArg some (centralBinom_choose_aux _ _ (by decide))
  · intro n hn
    obtain ⟨m, rfl⟩ : ∃ m, n = m + 27 := ⟨n - 27, by omega⟩
    rfl

/-- Witness for C9 at concrete inputs. -/
theorem claim9_witness :
    centralBinom 10 = some (Nat.choose (2 * 10) 10) ∧ centralBinom 27 = none :=
  ⟨claim9_central_binom.1 10 (by decide), claim9_central_binom.2.2 27 (by decide)⟩

/-- C3: `place` followed by `unplace` restores the whole `Generator` frame
when the placed cell was unmarked and empty, and any fresh sequence of
places followed by the matching number of unplaces restores the frame. -/
theorem claim3_place_unplace_inverse :
    (∀ (s : Generator) (row col : Nat) (c : Cell) (headr headc : Nat),
        s.placedAt row col = false → s.grid.get row col = Cell.Empty →
        unplace (place s row col c headr headc) = s)
    ∧ (∀ (s : Generator) (ms : List (Nat × Nat × Cell × Nat × Nat)),
        seqFresh s ms = true → unplaceN (placeSeq s ms) ms.length = s) :=
  ⟨fun s row col c headr headc h1 h2 => unplace_place s row col c headr headc h1 h2,
   fun s ms h => placeSeq_roundtrip ms s h⟩

/-- Witness for C3: a placement and a two-step placement sequence on the
fresh generator round-trip concretely. -/
theorem claim3_witness :
    ((Generator.new (Area.mk 32 0) 49 49).placedAt 1 1 = false
      ∧ (Generator.new (Area.mk 32 0) 49 49).grid.get 1 1 = Cell.Empty
      ∧ unplace (place (Generator.new (Area.mk 32 0) 49 49) 1 1 Cell.Forward 1 2)
          = Generator.new (Area.mk 32 0) 49 49)
    ∧ (seqFresh (Generator.new (Area.mk 32 0) 49 49)
          [(1, 1, Cell.Forward, 1, 2), (1, 2, Cell.Backward, 2, 3)] = true
      ∧ unplaceN (placeSeq (Generator.new (Area.mk 32 0) 49 49)
          [(1, 1, Cell.Forward, 1, 2), (1, 2, Cell.Backward, 2, 3)]) 2
          = Generator.new (Area.mk 32 0) 49 49) := by
  constructor
  · exact ⟨by decide, by decide,
      claim3_place_unplace_inverse.1 _ 1 1 Cell.Forward 1 2 (by decide) (by decide)⟩
  · exact ⟨by decide, claim3_place_unplace_inverse.2 _ _ (by decide)⟩

/-- C4 counterexample: the minimal-closed-loop grid (the 2x2 block of
opposite-facing slants) yields the pre-simplification counters
`j = 0`, `h = 4` and area `{units: 2, half: 0}`, not `h = 2` and
`{units: 1, half: 0}` as claimed. -/
theorem claim4_counterexample :
    gridMinLoop.scan.j = 0 ∧ gridMinLoop.scan.h = 4
      ∧ gridMinLoop.loopArea = Except.ok (Area.mk 2 0)
      ∧ ¬(gridMinLoop.scan.h = 2
          ∧ gridMinLoop.loopArea = Except.ok (Area.mk 1 0)) := by
  decide

/-- C4 (amended): for the 7x7 grid empty except one 2x2 block of
opposite-facing slants forming the minimal closed loop, the scan counts
before simplification are `Area{units: 0, half: 4}`, which simplifies to
`Area{units: 2, half: 0}`, and `loop_area` returns `Area{units: 2, half: 0}`. -/
theorem claim4_amended_minimal_loop_area :
    gridMinLoop.scan.j = 0 ∧ gridMinLoop.scan.h = 4
      ∧ (Area.mk 0 4).simplify = Area.mk 2 0
      ∧ gridMinLoop.loopArea = Except.ok (Area.mk 2 0) := by
  decide

/-- C5 counterexample: the first-placement phase skips two
cell/orientation configurations, not four. -/
theorem claim5_counterexample :
    skippedConfigs.length = 2 ∧ ¬skippedConfigs.length = 4 := by
  decide

/-- C5 (amended): the first-placement phase tries every one of the 49 cells
with both slant orientations, skipping exactly the two configurations whose
implied starting vertex is one of the grid's outer corner vertices:
`Backward` at cell (0, 0) (start vertex (0, 0)) and `Forward` at cell (6, 0)
(start vertex (7, 0)); every other cell/orientation pair is tried. -/
theorem claim5_amended_skipped_configs :
    firstConfigs.length = 98
      ∧ skippedConfigs = [(0, 0, Cell.Backward), (6, 0, Cell.Forward)] := by
  decide

/-! ### Preservation of invariants through the search -/

theorem unplace_target (s : Generator) : (unplace s).target = s.target := by
  unfold unplace; split <;> rfl

theorem unplace_validGrids (s : Generator) :
    (unplace s).validGrids = s.validGrids := by
  unfold unplace; split <;> rfl

theorem unplace_validCnt (s : Generator) : (unplace s).validCnt = s.validCnt := by
  unfold unplace; split <;> rfl

theorem unplace_assertOk (s : Generator) : (unplace s).assertOk = s.assertOk := by
  unfold unplace; split <;> rfl


theorem presInv_foldl {P : Generator → Prop} {α : Type}
    (f : Generator → α → Generator) (l : List α)
    (hf : ∀ s x, P s → P (f s x)) :
    ∀ s, P s → P (l.foldl f s) := by
  induction l with
  | nil => intro s h; simpa using h
  | cons x xs ih => intro s h; rw [List.foldl_cons]; exact ih _ (hf s x h)

theorem presInv_firstTry {P : Generator → Prop} (hP : PresInv P)
    (recur : Generator → Generator) (hrec : ∀ s, P s → P (recur s)) :
    ∀ (s : Generator) (r c : Nat) (cell : Cell),
      P s → P (firstTry recur s r c cell) := by
  intro s r c cell hs
  cases cell with
  | Empty => exact hs
  | Forward =>
    show P (if firstSkip r c Cell.Forward = true then s
      else unplace (recur (place { s with head := (r, c + 1), start := (r + 1, c) }
        r c Cell.Forward r (c + 1))))
    split
    · exact hs
    · exact hP.presUnplace _ (hrec _ (hP.presPlace _ _ _ _ _ _
        (hP.presHeadStart _ _ _ _ _ hs)))
  | Backward =>
    show P (if firstSkip r c Cell.Backward = true then s
      else unplace (recur (place { s with head := (r + 1, c + 1), start := (r, c) }
        r c Cell.Backward (r + 1) (c + 1))))
    split
    · exact hs
    · exact hP.presUnplace _ (hrec _ (hP.presPlace _ _ _ _ _ _
        (hP.presHeadStart _ _ _ _ _ hs)))

theorem presInv_closeState {P : Generator → Prop} (hP : PresInv P)
    (s : Generator) (ncellr ncellc : Nat) (nCell : Cell) (nr nc : Nat)
    (hs : P s) : P (closeState s ncellr ncellc nCell nr nc) :=
  hP.presAssert _ _ (hP.presPlace s ncellr ncellc nCell nr nc hs)

theorem presInv_closeTry {P : Generator → Prop} (hP : PresInv P)
    (s : Generator) (ncellr ncellc : Nat) (nCell : Cell) (nr nc : Nat)
    (hs : P s) : P (closeTry s ncellr ncellc nCell nr nc).2 := by
  have hplaced := presInv_closeState hP s ncellr ncellc nCell nr nc hs
  unfold closeTry
  rcases hLA : (closeState s ncellr ncellc nCell nr nc).grid.loopArea with e | a
  · simp only [hLA]
    exact hP.presUnplace _ (hP.presAssert _ _ hplaced)
  · simp only [hLA]
    split
    case isTrue harea =>
      exact hP.presUnplace _ (hP.presPush _ _ hplaced hLA harea)
    case isFalse harea =>
      exact hP.presUnplace _ hplaced

theorem presInv_extPlace {P : Generator → Prop} (hP : PresInv P)
    (recur : Generator → Generator) (hrec : ∀ s, P s → P (recur s))
    (s : Generator) (ncellr ncellc : Nat) (nCell : Cell) (nr nc : Nat)
    (hs : P s) : P (extPlace recur s ncellr ncellc nCell nr nc) := by
  unfold extPlace
  split
  · exact hs
  · apply hP.presUnplace
    split
    · exact hrec _ (hP.presPlace _ _ _ _ _ _ hs)
    · exact hP.presPlace _ _ _ _ _ _ hs

theorem presInv_tryMove {P : Generator → Prop} (hP : PresInv P)
    (recur : Generator → Generator) (hrec : ∀ s, P s → P (recur s)) :
    ∀ (s : Generator) (m : Cand), P s → P (tryMove recur s m) := by
  intro s m hs
  rcases m with ⟨ncellr, ncellc, nCell, nr, nc⟩
  show P (if 2 ≤ crossCnt s.grid nr nc then s else _)
  split
  · exact hs
  · by_cases hcl : nr = s.start.1 ∧ nc = s.start.2
    · rw [if_pos hcl]
      have h2 := presInv_closeTry hP s ncellr ncellc nCell nr nc hs
      rcases hq : closeTry s ncellr ncellc nCell nr nc with ⟨b, s2⟩
      rw [hq] at h2
      cases b
      · exact h2
      · exact presInv_extPlace hP recur hrec s2 ncellr ncellc nCell nr nc h2
    · rw [if_neg hcl]
      exact presInv_extPlace hP recur hrec s ncellr ncellc nCell nr nc hs

theorem presInv_step {P : Generator → Prop} (hP : PresInv P)
    (recur : Generator → Generator) (hrec : ∀ s, P s → P (recur s)) :
    ∀ s : Generator, P s → P (step recur s) := by
  intro s hs
  simp only [step]
  split
  · refine presInv_foldl _ _ (fun s' rc h => ?_) _ (hP.presCalls s hs)
    unfold firstCellStep
    dsimp only
    exact hP.presPlacedMark _ _ _
      (presInv_foldl _ _
        (fun s'' cell h' => presInv_firstTry hP recur hrec s'' rc.1 rc.2 cell h')
        s' h)
  · exact presInv_foldl _ _
      (fun s' m h => presInv_tryMove hP recur hrec s' m h)
      _ (hP.presCalls s hs)

theorem presInv_nextCell {P : Generator → Prop} (hP : PresInv P) :
    ∀ (fuel : Nat) (s : Generator), P s → P (nextCell fuel s) := by
  intro fuel
  induction fuel with
  | zero => intro s h; exact h
  | succ fuel ih => intro s h; exact presInv_step hP (nextCell fuel) ih s h

theorem run_eq (s : Generator) : s.run = nextCell (s.maxLength + 3) s := rfl

theorem generate_eq (s : Generator) :
    s.generate = ((s.run).validCnt, (s.run).validGrids) := rfl


theorem harvestedMatch_presInv (t : Area) : PresInv (harvestedMatch t) := by
  constructor
  · intro s row col c headr headc h; exact h
  · intro s h
    refine ⟨?_, ?_⟩
    · rw [unplace_target]; exact h.1
    · rw [unplace_validGrids]; exact h.2
  · intro s a b t1 t2 h; exact h
  · intro s r c h; exact h
  · intro s h; exact h
  · intro s b h; exact h
  · intro s area h hLA harea
    refine ⟨h.1, ?_⟩
    intro g hg
    rcases List.mem_cons.mp hg with rfl | hg2
    · exact ⟨area, hLA, by rw [harea, h.1]⟩
    · exact h.2 g hg2

/-- The invariant behind C10: nothing is ever harvested when the target is
too large to be any loop's area. -/
def emptyHarvest (t : Area) (s : Generator) : Prop :=
  s.target = t.simplify ∧ s.validGrids = [] ∧ s.validCnt = 0

theorem emptyHarvest_presInv (t : Area)
    (hbig : 98 < 2 * t.simplify.units + t.simplify.half) :
    PresInv (emptyHarvest t) := by
  constructor
  · intro s row col c headr headc h; exact h
  · intro s h
    exact ⟨by rw [unplace_target]; exact h.1,
      by rw [unplace_validGrids]; exact h.2.1,
      by rw [unplace_validCnt]; exact h.2.2⟩
  · intro s a b t1 t2 h; exact h
  · intro s r c h; exact h
  · intro s h; exact h
  · intro s b h; exact h
  · intro s area h hLA harea
    have hb := loopArea_ok_bound s.grid area hLA
    rw [harea, h.1] at hb
    exact absurd hb (by omega)

/-- C2: for every target area and every pair of bounds, every grid in the
`valid_grids` list returned by `Generator::generate` has a `loop_area` that
returns `Ok` and whose simplified value equals the simplified target area. -/
theorem claim2_harvested_grids_match_target (target : Area) (mi ml : Nat) :
    ((Generator.new target mi ml).generate).2.Forall
      (fun g => ∃ a, g.loopArea = Except.ok a ∧ a.simplify = target.simplify) := by
  have hinit : harvestedMatch target (Generator.new target mi ml) :=
    ⟨rfl, by intro g hg; simp [Generator.new] at hg⟩
  have hfin := presInv_nextCell (harvestedMatch_presInv target)
    ((Generator.new target mi ml).maxLength + 3) _ hinit
  have hlist : ((Generator.new target mi ml).generate).2
      = (nextCell ((Generator.new target mi ml).maxLength + 3)
          (Generator.new target mi ml)).validGrids := by
    rw [generate_eq, run_eq]
  rw [hlist, List.forall_iff_forall_mem]
  exact hfin.2

/-- C10: a target area whose simplified value exceeds the 49 cells of the
grid yields an empty `valid_grids` list and `valid_cnt = 0`, for any bounds. -/
theorem claim10_oversized_target_yields_nothing (target : Area) (mi ml : Nat)
    (hbig : 98 < 2 * target.simplify.units + target.simplify.half) :
    (Generator.new target mi ml).generate = (0, []) := by
  have hinit : emptyHarvest target (Generator.new target mi ml) := ⟨rfl, rfl, rfl⟩
  have hfin := presInv_nextCell (emptyHarvest_presInv target hbig)
    ((Generator.new target mi ml).maxLength + 3) _ hinit
  have hpair : (Generator.new target mi ml).generate
      = ((nextCell ((Generator.new target mi ml).maxLength + 3)
            (Generator.new target mi ml)).validCnt,
         (nextCell ((Generator.new target mi ml).maxLength + 3)
            (Generator.new target mi ml)).validGrids) := by
    rw [generate_eq, run_eq]
  rw [hpair, hfin.2.2, hfin.2.1]

/-- Witness for C10 at the concrete target of 50 whole units. -/
theorem claim10_witness :
    98 < 2 * (Area.mk 50 0).simplify.units + (Area.mk 50 0).simplify.half
      ∧ (Generator.new (Area.mk 50 0) 49 49).generate = (0, []) :=
  ⟨by decide, claim10_oversized_target_yields_nothing (Area.mk 50 0) 49 49 (by decide)⟩

/-! ### Further matrix lemmas, for the parity invariant -/

theorem matGet_matSet_ne {α : Type} (m : Mat α) (d v : α) {r c r2 c2 : Nat}
    (h : r2 ≠ r ∨ c2 ≠ c) :
    matGet (matSet m r c v) d r2 c2 = matGet m d r2 c2 := by
  unfold matGet matSet
  rcases h with h | h
  · rw [List.getElem?_set_ne (fun he => h he.symm)]
  · by_cases hr : r2 = r
    · subst hr
      by_cases hlt : r2 < m.length
      · rw [List.getElem?_set_eq_of_lt _ (by simpa using hlt),
          List.getElem?_eq_getElem hlt]
        simp only [Option.getD_some]
        rw [List.getElem?_set_ne (fun he => h he.symm)]
      · rw [List.set_eq_of_length_le (Nat.le_of_not_lt hlt)]
    · rw [List.getElem?_set_ne (fun he => hr he.symm)]

theorem matWF_matSet {α : Type} {m : Mat α} (hWF : matWF m) (r c : Nat) (v : α) :
    matWF (matSet m r c v) := by
  by_cases hr : r < m.length
  · obtain ⟨hlen, hrows⟩ := hWF
    refine ⟨by simpa [matSet] using hlen, ?_⟩
    intro row hrow
    rcases List.mem_or_eq_of_mem_set hrow with h | h
    · exact hrows row h
    · subst h
      rw [List.length_set, List.getElem?_eq_getElem hr]
      simp only [Option.getD_some]
      exact hrows _ (List.getElem_mem hr)
  · rw [matSet_oob_row m r c v (Nat.le_of_not_lt hr)]
    exact hWF

theorem matGet_matSet_self {α : Type} {m : Mat α} (hWF : matWF m) (d v : α)
    {r c : Nat} (hr : r < 7) (hc : c < 7) :
    matGet (matSet m r c v) d r c = v := by
  obtain ⟨hlen, hrows⟩ := hWF
  have hrm : r < m.length := by omega
  have hcrow : c < (m[r]).length := by
    rw [hrows _ (List.getElem_mem hrm)]; omega
  unfold matGet matSet
  rw [List.getElem?_set_eq_of_lt _ (by simpa using hrm)]
  simp only [Option.getD_some]
  rw [List.getElem?_eq_getElem hrm]
  simp only [Option.getD_some]
  rw [List.getElem?_set_eq_of_lt _ (by simpa using hcrow)]
  rfl

theorem matSet_noop {α : Type} {m : Mat α} (hWF : matWF m) (v : α)
    {r c : Nat} (h : ¬(r < 7 ∧ c < 7)) : matSet m r c v = m := by
  obtain ⟨hlen, hrows⟩ := hWF
  by_cases hr : r < 7
  · have hc : ¬c < 7 := fun hc => h ⟨hr, hc⟩
    have hrm : r < m.length := by omega
    have hrow : m[r]? = some (m[r]) := List.getElem?_eq_getElem hrm
    unfold matSet
    rw [hrow]
    simp only [Option.getD_some]
    have hinner : (m[r]).set c v = m[r] :=
      List.set_eq_of_length_le
        (by rw [hrows _ (List.getElem_mem hrm)]; omega)
    rw [hinner]
    exact list_set_getElem_self hrow
  · exact matSet_oob_row m r c _ (by omega)

theorem matGet_replicate {α : Type} (v : α) (r c : Nat) :
    matGet (List.replicate 7 (List.replicate 7 v)) v r c = v := by
  unfold matGet
  by_cases hr : r < 7
  · rw [List.getElem?_replicate, if_pos hr]
    simp only [Option.getD_some]
    by_cases hc : c < 7
    · rw [List.getElem?_replicate, if_pos hc]; rfl
    · rw [List.getElem?_replicate, if_neg hc]; rfl
  · rw [List.getElem?_replicate, if_neg hr]; rfl

/-! ### The frame of the search state, and the parity invariant -/


theorem SameFrame.refl (s : Generator) : SameFrame s s :=
  ⟨rfl, rfl, rfl, rfl, rfl, rfl, rfl, rfl, rfl, rfl⟩

theorem SameFrame.trans {a b c : Generator}
    (h1 : SameFrame a b) (h2 : SameFrame b c) : SameFrame a c :=
  ⟨h1.hgrid.trans h2.hgrid, h1.hplaced.trans h2.hplaced,
   h1.hcnt.trans h2.hcnt, h1.hmoves.trans h2.hmoves,
   h1.hhead.trans h2.hhead, h1.hstart.trans h2.hstart,
   h1.hinner.trans h2.hinner, h1.htarget.trans h2.htarget,
   h1.hmaxInner.trans h2.hmaxInner, h1.hmaxLen.trans h2.hmaxLen⟩

theorem unplace_nil {s : Generator} (h : s.moves = []) : unplace s = s := by
  unfold unplace
  split
  · rfl
  · next _ _ _ _ _ heq => rw [h] at heq; cases heq

theorem unplace_cons {s : Generator} {row col hr hc : Nat}
    {rest : List ((Nat × Nat) × (Nat × Nat))}
    (h : s.moves = ((row, col), (hr, hc)) :: rest) :
    unplace s =
      { s with
        grid := s.grid.set row col Cell.Empty
        placed := matSet s.placed row col false
        placedCnt := s.placedCnt - 1
        moves := rest
        head := (hr, hc)
        innerCells :=
          if 0 < row ∧ row < 6 ∧ 0 < col ∧ col < 6
          then s.innerCells - 1 else s.innerCells } := by
  unfold unplace
  split
  · next heq => rw [h] at heq; cases heq
  · next r2 c2 h2 rest2 _ heq =>
    rw [h] at heq
    cases heq
    rfl



/-- The full invariant carried through the search for the parity claim. -/
def QInv (s : Generator) : Prop := QFrame s ∧ s.assertOk = true

theorem QFrame_of_sameFrame {s1 s2 : Generator} (h : SameFrame s1 s2)
    (hq : QFrame s2) : QFrame s1 := by
  unfold QFrame GP at hq ⊢
  rw [h.hgrid, h.hplaced, h.hcnt, h.hmoves, h.hhead, h.hstart]
  exact hq

theorem extMove1_mem {s : Generator} {dr dc : Int} {m : Cand}
    (hdr : dr = -1 ∨ dr = 1) (hdc : dc = -1 ∨ dc = 1)
    (hm : m ∈ extMove1 s dr dc) :
    matGet s.placed false m.1 m.2.1 = false
      ∧ m.2.2.1 ≠ Cell.Empty
      ∧ m.2.2.2.1 % 2 = (s.head.1 + 1) % 2 := by
  rcases hdr with rfl | rfl <;> rcases hdc with rfl | rfl <;>
      (simp only [extMove1] at hm
       split at hm <;> try simp at hm) <;>
    (obtain ⟨h2, hp, rfl⟩ := hm
     exact ⟨hp, by simp, by dsimp only; try omega⟩)

theorem extMoves_mem {s : Generator} {m : Cand} (hm : m ∈ extMoves s) :
    matGet s.placed false m.1 m.2.1 = false
      ∧ m.2.2.1 ≠ Cell.Empty
      ∧ m.2.2.2.1 % 2 = (s.head.1 + 1) % 2 := by
  simp only [extMoves, List.mem_append] at hm
  rcases hm with ((hm | hm) | hm) | hm
  · exact extMove1_mem (Or.inl rfl) (Or.inl rfl) hm
  · exact extMove1_mem (Or.inl rfl) (Or.inr rfl) hm
  · exact extMove1_mem (Or.inr rfl) (Or.inl rfl) hm
  · exact extMove1_mem (Or.inr rfl) (Or.inr rfl) hm

theorem GP_place {s : Generator} (hg : matWF s.grid.data) (hp : matWF s.placed)
    (hGP : GP s) (row col : Nat) (c : Cell) (hr2 hc2 : Nat) :
    GP (place s row col c hr2 hc2) := by
  have e1 : (place s row col c hr2 hc2).placed = matSet s.placed row col true := rfl
  have e2 : (place s row col c hr2 hc2).grid.data = matSet s.grid.data row col c := rfl
  unfold GP
  simp only [e1, e2]
  intro a b hab
  by_cases hin : row < 7 ∧ col < 7
  · by_cases heq : a = row ∧ b = col
    · obtain ⟨rfl, rfl⟩ := heq
      rw [matGet_matSet_self hp false true hin.1 hin.2] at hab
      cases hab
    · have hne : a ≠ row ∨ b ≠ col := by tauto
      rw [matGet_matSet_ne _ _ _ hne] at hab
      rw [matGet_matSet_ne _ _ _ hne]
      exact hGP a b hab
  · rw [matSet_noop hp _ hin] at hab
    rw [matSet_noop hg _ hin]
    exact hGP a b hab

theorem QFrame_place {s : Generator} (hQ : QFrame s) (row col : Nat) (c : Cell)
    (hr2 hc2 : Nat) (hpar : (hr2 + (s.placedCnt + 1)) % 2 = s.start.1 % 2) :
    QFrame (place s row col c hr2 hc2) := by
  obtain ⟨hg, hp, hcnt, hparOld, hGP⟩ := hQ
  refine ⟨matWF_matSet hg row col c, matWF_matSet hp row col true, ?_, ?_,
    GP_place hg hp hGP row col c hr2 hc2⟩
  · show s.placedCnt + 1 = (((row, col), s.head) :: s.moves).length
    simp [hcnt]
  · intro _
    show ((hr2, hc2).1 + (s.placedCnt + 1)) % 2 = s.start.1 % 2
    exact hpar

theorem sameFrame_unplace_place (s2 x : Generator) (row col : Nat) (c : Cell)
    (hr2 hc2 : Nat) (hsf : SameFrame s2 (place x row col c hr2 hc2))
    (h1 : matGet x.placed false row col = false)
    (h2 : matGet x.grid.data Cell.Empty row col = Cell.Empty) :
    SameFrame (unplace s2) x := by
  have hmv : s2.moves = ((row, col), (x.head.1, x.head.2)) :: x.moves := hsf.hmoves
  rw [unplace_cons hmv]
  have hpg : (place x row col c hr2 hc2).grid = x.grid.set row col c := rfl
  have hgr : s2.grid.set row col Cell.Empty = x.grid := by
    rw [hsf.hgrid, hpg]
    show Grid.mk (matSet (matSet x.grid.data row col c) row col Cell.Empty) = x.grid
    rw [matSet_cancel c h2]
  have hpl : matSet s2.placed row col false = x.placed := by
    have hpp : (place x row col c hr2 hc2).placed = matSet x.placed row col true := rfl
    rw [hsf.hplaced, hpp, matSet_cancel true h1]
  refine ⟨hgr, hpl, ?_, rfl, rfl, ?_, ?_, ?_, ?_, ?_⟩
  · have hc2 : s2.placedCnt = x.placedCnt + 1 := hsf.hcnt
    show s2.placedCnt - 1 = x.placedCnt
    omega
  · exact hsf.hstart
  · have hInner : s2.innerCells
        = (if 0 < row ∧ row < 6 ∧ 0 < col ∧ col < 6
           then x.innerCells + 1 else x.innerCells) := hsf.hinner
    show (if 0 < row ∧ row < 6 ∧ 0 < col ∧ col < 6
      then s2.innerCells - 1 else s2.innerCells) = x.innerCells
    split <;> rename_i hcond
    · rw [hInner, if_pos hcond]; omega
    · rw [hInner, if_neg hcond]
  · exact hsf.htarget
  · exact hsf.hmaxInner
  · exact hsf.hmaxLen

theorem closeTry_ok (x : Generator) (cr cc : Nat) (cell : Cell) (nr nc : Nat)
    (hQ : QFrame x) (hok : x.assertOk = true)
    (h1 : matGet x.placed false cr cc = false)
    (hodd : x.placedCnt % 2 = 1) :
    SameFrame (closeTry x cr cc cell nr nc).2 x
      ∧ (closeTry x cr cc cell nr nc).2.assertOk = true := by
  obtain ⟨hg, hp, hcnt, hpar, hGP⟩ := hQ
  have hA : (closeState x cr cc cell nr nc).assertOk = true := by
    show (x.assertOk && decide ((x.placedCnt + 1) % 2 = 0)) = true
    rw [hok]
    simp only [Bool.true_and, decide_eq_true_eq]
    omega
  have hWFc : matWF (closeState x cr cc cell nr nc).grid.data := by
    show matWF (matSet x.grid.data cr cc cell)
    exact matWF_matSet hg cr cc cell
  have hLAok := loopArea_ok_of_sum _ (grid_scan_sum _ hWFc)
  have hsf1 : SameFrame (closeState x cr cc cell nr nc) (place x cr cc cell nr nc) :=
    ⟨rfl, rfl, rfl, rfl, rfl, rfl, rfl, rfl, rfl, rfl⟩
  have hfresh2 := hGP cr cc h1
  unfold closeTry
  rcases hLA : (closeState x cr cc cell nr nc).grid.loopArea with e | a
  · rw [hLA] at hLAok
    cases hLAok
  · simp only [hLA]
    split <;> dsimp only
    · refine ⟨sameFrame_unplace_place _ x cr cc cell nr nc ?_ h1 hfresh2, ?_⟩
      · exact ⟨hsf1.hgrid, hsf1.hplaced, hsf1.hcnt, hsf1.hmoves, hsf1.hhead,
          hsf1.hstart, hsf1.hinner, hsf1.htarget, hsf1.hmaxInner, hsf1.hmaxLen⟩
      · rw [unplace_assertOk]
        exact hA
    · refine ⟨sameFrame_unplace_place _ x cr cc cell nr nc hsf1 h1 hfresh2, ?_⟩
      rw [unplace_assertOk]
      exact hA

theorem extPlace_ok (recur : Generator → Generator)
    (hrec : ∀ s, QInv s → QInv (recur s) ∧ (s.moves ≠ [] → SameFrame (recur s) s))
    (x : Generator) (cr cc : Nat) (cell : Cell) (nr nc : Nat)
    (hQ : QFrame x) (hok : x.assertOk = true)
    (h1 : matGet x.placed false cr cc = false)
    (hpar : (nr + (x.placedCnt + 1)) % 2 = x.start.1 % 2) :
    SameFrame (extPlace recur x cr cc cell nr nc) x
      ∧ (extPlace recur x cr cc cell nr nc).assertOk = true := by
  have hGP := hQ.2.2.2.2
  unfold extPlace
  split
  · exact ⟨SameFrame.refl x, hok⟩
  · have hQ5 : QFrame (place x cr cc cell nr nc) :=
      QFrame_place hQ cr cc cell nr nc hpar
    have hmv5 : (place x cr cc cell nr nc).moves ≠ [] := by
      show ((cr, cc), x.head) :: x.moves ≠ []
      simp
    dsimp only
    split
    · obtain ⟨hQ6, hsf6⟩ := hrec (place x cr cc cell nr nc) ⟨hQ5, hok⟩
      exact ⟨sameFrame_unplace_place _ x cr cc cell nr nc (hsf6 hmv5) h1 (hGP cr cc h1),
        by rw [unplace_assertOk]; exact hQ6.2⟩
    · exact ⟨sameFrame_unplace_place _ x cr cc cell nr nc (SameFrame.refl _) h1 (hGP cr cc h1),
        by rw [unplace_assertOk]; exact hok⟩

theorem tryMove_ok (recur : Generator → Generator)
    (hrec : ∀ s, QInv s → QInv (recur s) ∧ (s.moves ≠ [] → SameFrame (recur s) s))
    (s0 x : Generator) (m : Cand) (hm : m ∈ extMoves s0)
    (hsf0 : SameFrame x s0) (hQ : QFrame x) (hok : x.assertOk = true)
    (hmvne : x.moves ≠ []) :
    SameFrame (tryMove recur x m) x ∧ (tryMove recur x m).assertOk = true := by
  obtain ⟨hfresh, hcellne, hparm⟩ := extMoves_mem hm
  have hfreshx : matGet x.placed false m.1 m.2.1 = false := by
    rw [hsf0.hplaced]; exact hfresh
  have hheadx : m.2.2.2.1 % 2 = (x.head.1 + 1) % 2 := by
    rw [hsf0.hhead]; exact hparm
  rcases m with ⟨cr, cc, cell, nr, nc⟩
  dsimp only at hfreshx hheadx
  have hgoal : tryMove recur x (cr, cc, cell, nr, nc)
      = (if 2 ≤ crossCnt x.grid nr nc then x
         else
           match
             (if nr = x.start.1 ∧ nc = x.start.2
               then closeTry x cr cc cell nr nc
               else (true, x)) with
           | (false, s) => s
           | (true, s) => extPlace recur s cr cc cell nr nc) := rfl
  rw [hgoal]
  have hparx := hQ.2.2.2.1 hmvne
  split
  · exact ⟨SameFrame.refl x, hok⟩
  · by_cases hcl : nr = x.start.1 ∧ nc = x.start.2
    · rw [if_pos hcl]
      obtain ⟨hcl1, hcl2⟩ := hcl
      have hodd : x.placedCnt % 2 = 1 := by omega
      obtain ⟨hsfC, hokC⟩ := closeTry_ok x cr cc cell nr nc hQ hok hfreshx hodd
      rcases hq : closeTry x cr cc cell nr nc with ⟨b, s2⟩
      rw [hq] at hsfC hokC
      cases b
      · exact ⟨hsfC, hokC⟩
      · have hQ2 : QFrame s2 := QFrame_of_sameFrame hsfC hQ
        have hf2 : matGet s2.placed false cr cc = false := by
          rw [hsfC.hplaced]; exact hfreshx
        have hpar2 : (nr + (s2.placedCnt + 1)) % 2 = s2.start.1 % 2 := by
          rw [hsfC.hcnt, hsfC.hstart]; omega
        obtain ⟨hsfE, hokE⟩ :=
          extPlace_ok recur hrec s2 cr cc cell nr nc hQ2 hokC hf2 hpar2
        exact ⟨hsfE.trans hsfC, hokE⟩
    · rw [if_neg hcl]
      have hpar2 : (nr + (x.placedCnt + 1)) % 2 = x.start.1 % 2 := by omega
      exact extPlace_ok recur hrec x cr cc cell nr nc hQ hok hfreshx hpar2

theorem firstPlace_ok (recur : Generator → Generator)
    (hrec : ∀ s, QInv s → QInv (recur s) ∧ (s.moves ≠ [] → SameFrame (recur s) s))
    (y : Generator) (r c : Nat) (cell : Cell) (h1 h2 st1 st2 : Nat)
    (hr7 : r < 7) (hc7 : c < 7) (hpar : (h1 + 1) % 2 = st1 % 2)
    (hQ : QFrame y) (hok : y.assertOk = true) (hmv : y.moves = []) :
    QFrame (unplace (recur
        (place { y with head := (h1, h2), start := (st1, st2) } r c cell h1 h2)))
      ∧ (unplace (recur
          (place { y with head := (h1, h2), start := (st1, st2) } r c cell h1 h2))).assertOk
        = true
      ∧ (unplace (recur
          (place { y with head := (h1, h2), start := (st1, st2) } r c cell h1 h2))).moves
        = [] := by
  obtain ⟨hg, hp, hcnt, hparOld, hGP⟩ := hQ
  have hcnt0 : y.placedCnt = 0 := by rw [hmv] at hcnt; simpa using hcnt
  have hQ1 : QFrame { y with head := (h1, h2), start := (st1, st2) } := by
    refine ⟨hg, hp, hcnt, ?_, hGP⟩
    intro hne
    exact absurd hmv hne
  have hQ2 : QFrame (place { y with head := (h1, h2), start := (st1, st2) }
      r c cell h1 h2) := by
    refine QFrame_place hQ1 r c cell h1 h2 ?_
    show (h1 + (y.placedCnt + 1)) % 2 = st1 % 2
    rw [hcnt0]
    exact hpar
  obtain ⟨hQ3, hsf3⟩ := hrec _ ⟨hQ2, hok⟩
  have hmv2 : (place { y with head := (h1, h2), start := (st1, st2) }
      r c cell h1 h2).moves ≠ [] := by
    show ((r, c), (h1, h2)) :: y.moves ≠ []
    simp
  have hsf := hsf3 hmv2
  have hmv3 : (recur (place { y with head := (h1, h2), start := (st1, st2) }
      r c cell h1 h2)).moves = ((r, c), (h1, h2)) :: y.moves := hsf.hmoves
  have hmv4 : (recur (place { y with head := (h1, h2), start := (st1, st2) }
      r c cell h1 h2)).moves = ((r, c), (h1, h2)) :: [] :=
    hmv3.trans (by rw [hmv])
  rw [unplace_cons hmv4]
  obtain ⟨⟨hg3, hp3, hcnt3, hpar3, hGP3⟩, hok3⟩ := hQ3
  have hcntp : (recur (place { y with head := (h1, h2), start := (st1, st2) }
      r c cell h1 h2)).placedCnt = y.placedCnt + 1 := hsf.hcnt
  refine ⟨⟨?_, ?_, ?_, ?_, ?_⟩, ?_, rfl⟩
  · exact matWF_matSet hg3 r c Cell.Empty
  · exact matWF_matSet hp3 r c false
  · show _ - 1 = ([] : List ((Nat × Nat) × (Nat × Nat))).length
    rw [hcntp, hcnt0]
    rfl
  · intro hne
    exact absurd rfl hne
  · intro a b hab
    by_cases heq : a = r ∧ b = c
    · obtain ⟨rfl, rfl⟩ := heq
      show matGet (matSet _ a b Cell.Empty) Cell.Empty a b = Cell.Empty
      exact matGet_matSet_self hg3 Cell.Empty Cell.Empty hr7 hc7
    · have hne : a ≠ r ∨ b ≠ c := by tauto
      show matGet (matSet _ r c Cell.Empty) Cell.Empty a b = Cell.Empty
      rw [matGet_matSet_ne _ _ _ hne]
      refine hGP3 a b ?_
      rw [matGet_matSet_ne _ _ _ hne] at hab
      exact hab
  · exact hok3

theorem firstTry_ok (recur : Generator → Generator)
    (hrec : ∀ s, QInv s → QInv (recur s) ∧ (s.moves ≠ [] → SameFrame (recur s) s))
    (y : Generator) (r c : Nat) (cell : Cell) (hr7 : r < 7) (hc7 : c < 7)
    (hQ : QFrame y) (hok : y.assertOk = true) (hmv : y.moves = []) :
    QFrame (firstTry recur y r c cell)
      ∧ (firstTry recur y r c cell).assertOk = true
      ∧ (firstTry recur y r c cell).moves = [] := by
  cases cell with
  | Empty => exact ⟨hQ, hok, hmv⟩
  | Forward =>
    have heq : firstTry recur y r c Cell.Forward
        = (if firstSkip r c Cell.Forward = true then y
           else unplace (recur
             (place { y with head := (r, c + 1), start := (r + 1, c) }
               r c Cell.Forward r (c + 1)))) := rfl
    rw [heq]
    split
    · exact ⟨hQ, hok, hmv⟩
    · exact firstPlace_ok recur hrec y r c Cell.Forward r (c + 1) (r + 1) c
        hr7 hc7 (by omega) hQ hok hmv
  | Backward =>
    have heq : firstTry recur y r c Cell.Backward
        = (if firstSkip r c Cell.Backward = true then y
           else unplace (recur
             (place { y with head := (r + 1, c + 1), start := (r, c) }
               r c Cell.Backward (r + 1) (c + 1)))) := rfl
    rw [heq]
    split
    · exact ⟨hQ, hok, hmv⟩
    · exact firstPlace_ok recur hrec y r c Cell.Backward (r + 1) (c + 1) r c
        hr7 hc7 (by omega) hQ hok hmv

theorem foldl_inv_mem {P : Generator → Prop} {α : Type}
    (f : Generator → α → Generator) (l : List α)
    (hf : ∀ y x, x ∈ l → P y → P (f y x)) :
    ∀ y, P y → P (l.foldl f y) := by
  induction l with
  | nil => intro y h; simpa using h
  | cons x xs ih =>
    intro y h
    rw [List.foldl_cons]
    exact ih (fun y2 x2 hx2 h2 => hf y2 x2 (List.mem_cons_of_mem x hx2) h2)
      _ (hf y x (List.mem_cons_self x xs) h)

theorem firstCellList_bounds : ∀ rc ∈ firstCellList, rc.1 < 7 ∧ rc.2 < 7 := by
  decide

theorem firstCellStep_ok (recur : Generator → Generator)
    (hrec : ∀ s, QInv s → QInv (recur s) ∧ (s.moves ≠ [] → SameFrame (recur s) s))
    (y : Generator) (rc : Nat × Nat) (hb1 : rc.1 < 7) (hb2 : rc.2 < 7)
    (hy : QFrame y ∧ y.assertOk = true ∧ y.moves = []) :
    QFrame (firstCellStep recur y rc)
      ∧ (firstCellStep recur y rc).assertOk = true
      ∧ (firstCellStep recur y rc).moves = [] := by
  obtain ⟨hQy, hoky, hmvy⟩ := hy
  have hinner := foldl_inv_mem
    (P := fun y2 => QFrame y2 ∧ y2.assertOk = true ∧ y2.moves = [])
    (fun y2 cell => firstTry recur y2 rc.1 rc.2 cell) [Cell.Forward, Cell.Backward]
    (fun y2 cell _ hy2 =>
      firstTry_ok recur hrec y2 rc.1 rc.2 cell hb1 hb2 hy2.1 hy2.2.1 hy2.2.2)
    y ⟨hQy, hoky, hmvy⟩
  obtain ⟨⟨hgi, hpi, hcnti, hpari, hGPi⟩, hoki, hmvi⟩ := hinner
  unfold firstCellStep
  dsimp only
  refine ⟨⟨hgi, matWF_matSet hpi rc.1 rc.2 true, hcnti,
    fun hne => absurd hmvi hne, ?_⟩, hoki, hmvi⟩
  intro a b hab
  by_cases heq : a = rc.1 ∧ b = rc.2
  · obtain ⟨rfl, rfl⟩ := heq
    rw [matGet_matSet_self hpi false true hb1 hb2] at hab
    cases hab
  · have hne : a ≠ rc.1 ∨ b ≠ rc.2 := by tauto
    rw [matGet_matSet_ne _ _ _ hne] at hab
    exact hGPi a b hab

/-- The master invariant theorem: `next_cell` preserves the parity invariant
and, when called with a non-empty move log (every recursive call), restores
the backtracking frame. -/
theorem assertInv_nextCell : ∀ (fuel : Nat) (s : Generator), QInv s →
    QInv (nextCell fuel s) ∧ (s.moves ≠ [] → SameFrame (nextCell fuel s) s) := by
  intro fuel
  induction fuel with
  | zero => intro s h; exact ⟨h, fun _ => SameFrame.refl s⟩
  | succ fuel ih =>
    intro s hs
    show QInv (step (nextCell fuel) s)
      ∧ (s.moves ≠ [] → SameFrame (step (nextCell fuel) s) s)
    have hsf1 : SameFrame { s with calls := s.calls + 1 } s :=
      ⟨rfl, rfl, rfl, rfl, rfl, rfl, rfl, rfl, rfl, rfl⟩
    have hQ1 : QFrame { s with calls := s.calls + 1 } :=
      QFrame_of_sameFrame hsf1 hs.1
    have hok1 : ({ s with calls := s.calls + 1 } : Generator).assertOk = true := hs.2
    simp only [step]
    split
    · next hemp =>
      have hmv : s.moves = [] := by
        simpa [List.isEmpty_iff] using hemp
      have hres := foldl_inv_mem
        (P := fun y => QFrame y ∧ y.assertOk = true ∧ y.moves = [])
        (fun y rc => firstCellStep (nextCell fuel) y rc) firstCellList
        (fun y rc hrc hy =>
          firstCellStep_ok (nextCell fuel) ih y rc
            (firstCellList_bounds rc hrc).1 (firstCellList_bounds rc hrc).2 hy)
        { s with calls := s.calls + 1 }
        ⟨hQ1, hok1, hmv⟩
      exact ⟨⟨hres.1, hres.2.1⟩, fun hne => absurd hmv hne⟩
    · next hemp =>
      have hmvne : s.moves ≠ [] := by
        simpa [List.isEmpty_iff] using hemp
      have hmvne1 : ({ s with calls := s.calls + 1 } : Generator).moves ≠ [] := hmvne
      have hres := foldl_inv_mem
        (P := fun y => SameFrame y { s with calls := s.calls + 1 }
          ∧ y.assertOk = true)
        _ (extMoves { s with calls := s.calls + 1 })
        (by
          intro y m hm hy
          have hQy : QFrame y := QFrame_of_sameFrame hy.1 hQ1
          have hmvy : y.moves ≠ [] := by
            rw [hy.1.hmoves]
            exact hmvne1
          obtain ⟨hsfT, hokT⟩ := tryMove_ok (nextCell fuel) ih
            { s with calls := s.calls + 1 } y m hm hy.1 hQy hy.2 hmvy
          exact ⟨hsfT.trans hy.1, hokT⟩)
        { s with calls := s.calls + 1 }
        ⟨SameFrame.refl _, hok1⟩
      have hsfFin := hres.1.trans hsf1
      exact ⟨⟨QFrame_of_sameFrame hsfFin hs.1, hres.2⟩, fun _ => hsfFin⟩

/-- C7: the parity assertion at loop closure never fails.  The `assertOk`
flag of the search state records every execution of
`assert!(self.placed_cnt % 2 == 0)` after a closing placement (and of the
`expect` on `loop_area`); it is still `true` after the whole search, and
after `next_cell` with any recursion fuel. -/
theorem claim7_parity_assert_never_fails (target : Area) (mi ml fuel : Nat) :
    ((Generator.new target mi ml).run).assertOk = true
      ∧ (nextCell fuel (Generator.new target mi ml)).assertOk = true := by
  have hinit : QInv (Generator.new target mi ml) := by
    refine ⟨⟨?_, ?_, rfl, ?_, ?_⟩, rfl⟩
    · show matWF (List.replicate 7 (List.replicate 7 Cell.Empty))
      decide
    · show matWF (List.replicate 7 (List.replicate 7 false))
      decide
    · intro hne
      exact absurd rfl hne
    · intro a b _
      exact matGet_replicate Cell.Empty a b
  have heq : ((Generator.new target mi ml).run).assertOk
      = (nextCell ((Generator.new target mi ml).maxLength + 3)
          (Generator.new target mi ml)).assertOk := by
    rw [run_eq]
  constructor
  · rw [heq]
    exact (assertInv_nextCell ((Generator.new target mi ml).maxLength + 3)
      _ hinit).1.2
  · exact (assertInv_nextCell fuel _ hinit).1.2

end ArcAcreage
